import Mathlib

/-!
Verification of `research/bge-m3/generate_reference_embeddings.py` and
`research/multilingual-e5-large-instruct/generate_reference_embeddings.py`
from yuniko-software/power-embeddings.

The two scripts are shallowly embedded as pure Lean functions.  The ONNX
tokenizer and model sessions are external inference engines, so they are
modelled as oracle functions that may fail (`Except`), mirroring the fact
that any engine failure propagates as a Python exception.  Floating-point
weights are modelled as rationals: the script only compares weights with 0
and takes maxima, and both operations are exact on floats, so `ℚ` is a
faithful carrier.  Side effects of `main` (opening sessions, running
inference, writing the output JSON) are recorded in an explicit event
trace.  Python dicts keyed by `str(token_id)` are modelled as finite maps
keyed by the integer id itself, since `str` is injective on integers.
-/

namespace PowerEmbeddings

/-- Result of running the ONNX tokenizer session on one text: the script
destructures `tokenizer_outputs` as `tokens, _, token_indices`. -/
structure TokenizerOutputs where
  tokens : List Int
  token_indices : List Int

/-- The order Python's `list.sort()` uses on `(token_index, token)` pairs:
lexicographic comparison of 2-tuples of integers. -/
def pairLe (p q : Int × Int) : Prop :=
  p.1 < q.1 ∨ (p.1 = q.1 ∧ p.2 ≤ q.2)

instance : DecidableRel pairLe := fun p q => by unfold pairLe; infer_instance

instance : IsTotal (Int × Int) pairLe := ⟨by intro a b; unfold pairLe; omega⟩

instance : IsTrans (Int × Int) pairLe := ⟨by intro a b c; unfold pairLe; omega⟩

/-- `convert_tokenizer_outputs` (identical in both scripts): pair tokens
with their indices, sort by position, and build the `[1, seq_len]`-shaped
`input_ids` plus an all-ones `attention_mask` of the same shape
(`np.ones_like(input_ids)`).  Python's `list.sort()` is a stable sort by
the lexicographic tuple order `pairLe`; `List.insertionSort` is also
stable, and since `pairLe` is moreover antisymmetric the two sorts agree
on every input. -/
def convert_tokenizer_outputs (tokens token_indices : List Int) :
    List (List Int) × List (List Int) :=
  let token_pairs := List.insertionSort pairLe (token_indices.zip tokens)
  let ordered_tokens := token_pairs.map Prod.snd
  ([ordered_tokens], [ordered_tokens.map fun _ => (1 : Int)])

/-- The three output tensors of the BGE-M3 ONNX model session, as
destructured by `encode`; each keeps its leading batch dimension. -/
structure BGEModelOutputs where
  dense_embeddings : List (List ℚ)
  sparse_weights : List (List ℚ)
  colbert_vectors : List (List (List ℚ))

/-- The dictionary returned by `OnnxBGEM3Embedder.encode`.
`lexical_weights` is the Python dict keyed by `str(token_id)`, modelled as
a partial map from the integer token id. -/
structure BGEEncodeResult where
  dense_vecs : List ℚ
  lexical_weights : Int → Option ℚ
  colbert_vecs : List (List ℚ)

/-- The sparse-weight dict update performed at one qualifying position:
`sparse_dict[key] = max(sparse_dict.get(key, 0), weight)`. -/
def sparseStep (o : Option ℚ) (weight : ℚ) : Option ℚ :=
  some (max (o.getD 0) weight)

/-- One iteration of the `for i, token_id in enumerate(input_ids[0])`
loop: when the attention mask at `i` is 1 and the token id is not special,
a strictly positive sparse weight updates the dict entry for that token id
to the running maximum; otherwise the dict is unchanged. -/
def sparseUpdate (special mask0 : List Int) (sparse0 : List ℚ) (i : Nat)
    (token_id : Int) (d : Int → Option ℚ) : Int → Option ℚ :=
  if mask0.getD i 0 = 1 ∧ token_id ∉ special then
    if 0 < sparse0.getD i 0 then
      fun k => if k = token_id then sparseStep (d token_id) (sparse0.getD i 0) else d k
    else d
  else d

/-- The `for i, token_id in enumerate(input_ids[0])` loop of
`OnnxBGEM3Embedder.encode`, scanning token ids from position `i` on. -/
def sparseLoop (special mask0 : List Int) (sparse0 : List ℚ) :
    Nat → List Int → (Int → Option ℚ) → Int → Option ℚ
  | _, [], d => d
  | i, token_id :: rest, d =>
    sparseLoop special mask0 sparse0 (i + 1) rest
      (sparseUpdate special mask0 sparse0 i token_id d)

/-- The complete `sparse_dict` built by `encode` from the first row of
`input_ids`, `attention_mask` and `sparse_weights`, starting from the
empty dict. -/
def buildSparseDict (special mask0 : List Int) (sparse0 : List ℚ) (ids0 : List Int) :
    Int → Option ℚ :=
  sparseLoop special mask0 sparse0 0 ids0 (fun _ => none)

/-- The `for i in range(colbert_vectors.shape[1])` loop of `encode`: keep
the row-0 ColBERT vector of every position whose attention mask is 1, in
increasing position order. -/
def buildColbertList (mask0 : List Int) (col0 : List (List ℚ)) : List (List ℚ) :=
  (List.range col0.length).filterMap fun i =>
    if mask0.getD i 0 = 1 then some (col0.getD i []) else none

/-- The `OnnxBGEM3Embedder` object: the two ONNX sessions opened by
`__init__` (modelled as fallible oracles) and the `special_token_ids`
field. -/
structure OnnxBGEM3Embedder (ε : Type) where
  tokenizer_session : String → Except ε TokenizerOutputs
  model_session : List (List Int) → List (List Int) → Except ε BGEModelOutputs
  special_token_ids : List Int

/-- `OnnxBGEM3Embedder.encode`: tokenize, convert to model inputs, run the
model, and post-process the three outputs.  There is no exception handling
in the source, so a session error is returned unchanged. -/
def OnnxBGEM3Embedder.encode {ε : Type} (self : OnnxBGEM3Embedder ε) (text : String) :
    Except ε BGEEncodeResult :=
  match self.tokenizer_session text with
  | .error err => .error err
  | .ok touts =>
    let (input_ids, attention_mask) :=
      convert_tokenizer_outputs touts.tokens touts.token_indices
    match self.model_session input_ids attention_mask with
    | .error err => .error err
    | .ok mouts =>
      .ok { dense_vecs := mouts.dense_embeddings.getD 0 []
            lexical_weights := buildSparseDict self.special_token_ids
              (attention_mask.getD 0 []) (mouts.sparse_weights.getD 0 [])
              (input_ids.getD 0 [])
            colbert_vecs := buildColbertList (attention_mask.getD 0 [])
              (mouts.colbert_vectors.getD 0 []) }

/-- Observable side effects of a run of either script. -/
inductive Event
  | constructEmbedder
  | openSession (path : String)
  | encodeCall (text : String)
  | writeOutput (path : String)

/-- Recognizer for embedder-construction events. -/
def Event.isConstruct : Event → Bool
  | .constructEmbedder => true
  | _ => false

/-- Recognizer for session-opening events. -/
def Event.isOpenSession : Event → Bool
  | .openSession _ => true
  | _ => false

/-- Recognizer for output-file-write events. -/
def Event.isWrite : Event → Bool
  | .writeOutput _ => true
  | _ => false

/-- `OnnxBGEM3Embedder.__init__`: opens the tokenizer session, opens the
model session, and sets `special_token_ids = {0, 1, 2, 3}`.  The session
factories stand for `ort.InferenceSession`; the emitted events record that
constructing the embedder opens exactly these two sessions. -/
def OnnxBGEM3Embedder.init {ε : Type}
    (mkTokenizerSession : String → String → Except ε TokenizerOutputs)
    (mkModelSession : String → List (List Int) → List (List Int) → Except ε BGEModelOutputs)
    (tokenizer_path model_path : String) :
    OnnxBGEM3Embedder ε × List Event :=
  (⟨mkTokenizerSession tokenizer_path, mkModelSession model_path, [0, 1, 2, 3]⟩,
   [Event.constructEmbedder, Event.openSession tokenizer_path, Event.openSession model_path])

/-- State-passing form of the `encode` method call: the method body
contains no assignment to any field of `self`, so the post-state of the
receiver object is the pre-state. -/
def OnnxBGEM3Embedder.encodeM {ε : Type} (self : OnnxBGEM3Embedder ε) (text : String) :
    Except ε BGEEncodeResult × OnnxBGEM3Embedder ε :=
  (self.encode text, self)

/-- The `for text in test_texts` loop of the BGE-M3 `main`: each text is
encoded through the (threaded) embedder and accumulated into the
`embeddings` dict; the first engine error aborts the loop and propagates. -/
def processTexts {ε : Type} (e : OnnxBGEM3Embedder ε) :
    List String → List Event × OnnxBGEM3Embedder ε × Except ε (List (String × BGEEncodeResult))
  | [] => ([], e, .ok [])
  | text :: rest =>
    let (result, e') := e.encodeM text
    match result with
    | .error err => ([Event.encodeCall text], e', .error err)
    | .ok value =>
      let (tr, e'', res) := processTexts e' rest
      (Event.encodeCall text :: tr, e'', res.map fun l => (text, value) :: l)

/-- `os.path.join(script_dir, "onnx", "bge_m3_tokenizer.onnx")`. -/
def bge_tokenizer_path (script_dir : String) : String :=
  script_dir ++ "/onnx/bge_m3_tokenizer.onnx"

/-- `os.path.join(script_dir, "onnx", "bge_m3_model.onnx")`. -/
def bge_model_path (script_dir : String) : String :=
  script_dir ++ "/onnx/bge_m3_model.onnx"

/-- `os.path.join(script_dir, "onnx", "bge_m3_reference_embeddings.json")`. -/
def bge_output_path (script_dir : String) : String :=
  script_dir ++ "/onnx/bge_m3_reference_embeddings.json"

/-- The fixed `test_texts` list of the BGE-M3 script. -/
def bge_test_texts : List String :=
  [ "This is a simple test text.",
    "Hello world!",
    "A test text! Texto de prueba! Текст для теста! 測試文字! Testtext! Testez le texte! Сынақ мәтіні! Тестни текст! परीक्षण पाठ! Kiểm tra văn bản!",
    "",
    "This is a longer text that should generate a meaningful embedding vector. The embedding model should capture the semantic meaning of this text.",
    "ONNX Runtime is a performance-focused engine for ONNX models.",
    "Text with numbers: 12345 and symbols: !@#$%^&*()",
    "English, Español, Русский, 中文, العربية, हिन्दी" ]

/-- The BGE-M3 `main`: check that the two model files exist (early return
with no session, no inference and no output when one is missing),
construct the embedder once, encode every test text, and write the JSON
output exactly once at the end.  `path_exists` models `os.path.exists`;
stdout is not modelled.  The result is the event trace together with the
contents of the written JSON file (`none` when nothing was written). -/
def mainBGE {ε : Type} (path_exists : String → Bool)
    (mkTokenizerSession : String → String → Except ε TokenizerOutputs)
    (mkModelSession : String → List (List Int) → List (List Int) → Except ε BGEModelOutputs)
    (script_dir : String) :
    List Event × Option (List (String × BGEEncodeResult)) :=
  let tokenizer_path := bge_tokenizer_path script_dir
  let model_path := bge_model_path script_dir
  if path_exists tokenizer_path = false then ([], none)
  else if path_exists model_path = false then ([], none)
  else
    let initr :=
      OnnxBGEM3Embedder.init mkTokenizerSession mkModelSession tokenizer_path model_path
    let result := processTexts initr.1 bge_test_texts
    match result.2.2 with
    | .error _ => (initr.2 ++ result.1, none)
    | .ok embeddings =>
      (initr.2 ++ result.1 ++ [Event.writeOutput (bge_output_path script_dir)],
       some embeddings)

/-- The `OnnxE5LargeInstructEmbedder` object: the two ONNX sessions opened
by `__init__`.  The model session returns the list of output tensors of
`run`, each with its batch dimension. -/
structure OnnxE5LargeInstructEmbedder (ε : Type) where
  tokenizer_session : String → Except ε TokenizerOutputs
  model_session : List (List Int) → List (List Int) → Except ε (List (List (List ℚ)))

/-- `OnnxE5LargeInstructEmbedder.get_detailed_instruct`, the f-string
template required by the E5 model. -/
def OnnxE5LargeInstructEmbedder.get_detailed_instruct (task_description query : String) :
    String :=
  s!"Instruct: {task_description}\nQuery: {query}"

/-- Errors observable from the E5 `encode`: an engine error propagated
unchanged from one of the two sessions (tagged by `session`), or the
`IndexError` that `embeddings[0]` raises when `encode` is called with an
empty list of texts. -/
inductive E5Error (ε : Type)
  | session (err : ε)
  | indexError

/-- One iteration of the `for text in texts` loop of the E5 `encode`:
tokenize, convert, run the model, and extract `model_outputs[0][0]`. -/
def e5EncodeOne {ε : Type} (self : OnnxE5LargeInstructEmbedder ε) (text : String) :
    Except (E5Error ε) (List ℚ) :=
  match self.tokenizer_session text with
  | .error err => .error (.session err)
  | .ok touts =>
    let (input_ids, attention_mask) :=
      convert_tokenizer_outputs touts.tokens touts.token_indices
    match self.model_session input_ids attention_mask with
    | .error err => .error (.session err)
    | .ok model_outputs => .ok ((model_outputs.getD 0 []).getD 0 [])

/-- The full `for text in texts` loop of the E5 `encode`, accumulating the
`embeddings` list; the first engine error aborts the loop and propagates. -/
def e5EncodeLoop {ε : Type} (self : OnnxE5LargeInstructEmbedder ε) :
    List String → Except (E5Error ε) (List (List ℚ))
  | [] => .ok []
  | text :: rest =>
    match e5EncodeOne self text with
    | .error err => .error err
    | .ok v => (e5EncodeLoop self rest).map fun vs => v :: vs

/-- The dynamically-typed argument of the E5 `encode`: a single string or
a list of strings (`isinstance(texts, str)` dispatch). -/
inductive E5Input
  | str (s : String)
  | list (l : List String)

/-- The dynamically-typed return value of the E5 `encode`:
`embeddings if len(embeddings) > 1 else embeddings[0]`. -/
inductive E5Output
  | single (v : List ℚ)
  | multiple (vs : List (List ℚ))

/-- `OnnxE5LargeInstructEmbedder.encode`: wrap a bare string into a
one-element list, embed every text, and return the list when it has more
than one element, else its first element (an `IndexError` when empty). -/
def OnnxE5LargeInstructEmbedder.encode {ε : Type} (self : OnnxE5LargeInstructEmbedder ε)
    (texts : E5Input) : Except (E5Error ε) E5Output :=
  let textsL := match texts with | .str s => [s] | .list l => l
  match e5EncodeLoop self textsL with
  | .error err => .error err
  | .ok embeddings =>
    if 1 < embeddings.length then .ok (.multiple embeddings)
    else
      match embeddings with
      | [] => .error .indexError
      | v :: _ => .ok (.single v)

/-- One value of the JSON object written by the E5 `main`:
`{"text": text, "embedding": embedding}`. -/
structure E5Entry where
  text : String
  embedding : E5Output

/-- `OnnxE5LargeInstructEmbedder.__init__`: opens the tokenizer session
and the model session. -/
def OnnxE5LargeInstructEmbedder.init {ε : Type}
    (mkTokenizerSession : String → String → Except ε TokenizerOutputs)
    (mkModelSession : String → List (List Int) → List (List Int) → Except ε (List (List (List ℚ))))
    (tokenizer_path model_path : String) :
    OnnxE5LargeInstructEmbedder ε × List Event :=
  (⟨mkTokenizerSession tokenizer_path, mkModelSession model_path⟩,
   [Event.constructEmbedder, Event.openSession tokenizer_path, Event.openSession model_path])

/-- The `for name, text in test_cases.items()` loop of the E5 `main`:
each text is encoded (as a bare string) and stored under its case name
with the text itself; the first engine error aborts the loop and
propagates. -/
def e5ProcessCases {ε : Type} (e : OnnxE5LargeInstructEmbedder ε) :
    List (String × String) → List Event × Except (E5Error ε) (List (String × E5Entry))
  | [] => ([], .ok [])
  | (name, text) :: rest =>
    match e.encode (.str text) with
    | .error err => ([Event.encodeCall text], .error err)
    | .ok emb =>
      let (tr, res) := e5ProcessCases e rest
      (Event.encodeCall text :: tr, res.map fun l => (name, ⟨text, emb⟩) :: l)

/-- `os.path.join(script_dir, "onnx", "e5_large_instruct_tokenizer.onnx")`. -/
def e5_tokenizer_path (script_dir : String) : String :=
  script_dir ++ "/onnx/e5_large_instruct_tokenizer.onnx"

/-- `os.path.join(script_dir, "onnx", "e5_large_instruct_model.onnx")`. -/
def e5_model_path (script_dir : String) : String :=
  script_dir ++ "/onnx/e5_large_instruct_model.onnx"

/-- `os.path.join(script_dir, "onnx", "e5_large_instruct_reference_embeddings.json")`. -/
def e5_output_path (script_dir : String) : String :=
  script_dir ++ "/onnx/e5_large_instruct_reference_embeddings.json"

/-- The retrieval task instruction used by the E5 `main`. -/
def e5_task : String :=
  "Given a web search query, retrieve relevant passages that answer the query"

/-- The fixed `test_cases` dict of the E5 `main`, in insertion order. -/
def e5_test_cases : List (String × String) :=
  [ ("instruct_protein_query",
     OnnxE5LargeInstructEmbedder.get_detailed_instruct e5_task
       "how much protein should a female eat"),
    ("instruct_pumpkin_query",
     OnnxE5LargeInstructEmbedder.get_detailed_instruct e5_task "南瓜的家常做法"),
    ("protein_document",
     "As a general guideline, the CDC\x27s average requirement of protein for women ages 19 to 70 is 46 grams per day. But, as you can see from this chart, you\x27ll need to increase that if you\x27re expecting or training for a marathon. Check out the chart below to see how much protein you should be eating each day."),
    ("pumpkin_document",
     "1.清炒南瓜丝 原料:嫩南瓜半个 调料:葱、盐、白糖、鸡精 做法: 1、南瓜用刀薄薄的削去表面一层皮,用勺子刮去瓤 2、擦成细丝(没有擦菜板就用刀慢慢切成细丝) 3、锅烧热放油,入葱花煸出香味 4、入南瓜丝快速翻炒一分钟左右,放盐、一点白糖和鸡精调味出锅 2.香葱炒南瓜 原料:南瓜1只 调料:香葱、蒜末、橄榄油、盐 做法: 1、将南瓜去皮,切成片 2、油锅8成热后,将蒜末放入爆香 3、爆香后,将南瓜片放入,翻炒 4、在翻炒的同时,可以不时地往锅里加水,但不要太多 5、放入盐,炒匀 6、南瓜差不多软和绵了之后,就可以关火 7、撒入香葱,即可出锅"),
    ("simple_text", "This is a simple test text."),
    ("empty_text", ""),
    ("multilingual_text", "English, Español, Русский, 中文, العربية, हिन्दी"),
    ("long_text",
     "This is a longer text that should generate a meaningful embedding vector. The embedding model should capture the semantic meaning of this text and provide high-quality representations for various downstream tasks."),
    ("technical_text",
     "ONNX Runtime is a performance-focused engine for ONNX models, enabling cross-platform inference with identical results."),
    ("classification_query",
     OnnxE5LargeInstructEmbedder.get_detailed_instruct
       "Classify the sentiment of this text" "I love this product!"),
    ("summarization_query",
     OnnxE5LargeInstructEmbedder.get_detailed_instruct
       "Summarize the following passage"
       "The quick brown fox jumps over the lazy dog. This sentence contains every letter of the alphabet.") ]

/-- The E5 `main`: check that the two model files exist (early return with
no session, no inference and no output when one is missing), construct the
embedder once, encode every test case, and write the JSON output exactly
once at the end.  Same modelling conventions as `mainBGE`. -/
def mainE5 {ε : Type} (path_exists : String → Bool)
    (mkTokenizerSession : String → String → Except ε TokenizerOutputs)
    (mkModelSession : String → List (List Int) → List (List Int) → Except ε (List (List (List ℚ))))
    (script_dir : String) :
    List Event × Option (List (String × E5Entry)) :=
  let tokenizer_path := e5_tokenizer_path script_dir
  let model_path := e5_model_path script_dir
  if path_exists tokenizer_path = false then ([], none)
  else if path_exists model_path = false then ([], none)
  else
    let initr :=
      OnnxE5LargeInstructEmbedder.init mkTokenizerSession mkModelSession tokenizer_path model_path
    let result := e5ProcessCases initr.1 e5_test_cases
    match result.2 with
    | .error _ => (initr.2 ++ result.1, none)
    | .ok embeddings =>
      (initr.2 ++ result.1 ++ [Event.writeOutput (e5_output_path script_dir)],
       some embeddings)

/-- Specification-side list of the strictly positive sparse weights found
while scanning token ids from position `i` on: one entry per position
holding token id `t` whose attention mask is 1, whose id is not special
and whose sparse weight is strictly positive, in position order. -/
def positiveTokenWeights (special mask0 : List Int) (sparse0 : List ℚ) :
    Nat → List Int → Int → List ℚ
  | _, [], _ => []
  | i, token_id :: rest, t =>
    if token_id = t ∧ mask0.getD i 0 = 1 ∧ token_id ∉ special ∧ 0 < sparse0.getD i 0 then
      sparse0.getD i 0 :: positiveTokenWeights special mask0 sparse0 (i + 1) rest t
    else positiveTokenWeights special mask0 sparse0 (i + 1) rest t

/-- `sparseUpdate` changes the entry of key `t` exactly when the scanned
token id is `t` and the position qualifies, and then takes the running
maximum with the position's weight. -/
theorem sparseUpdate_apply (special mask0 : List Int) (sparse0 : List ℚ) (i : Nat)
    (token_id : Int) (d : Int → Option ℚ) (t : Int) :
    sparseUpdate special mask0 sparse0 i token_id d t =
      if token_id = t ∧ mask0.getD i 0 = 1 ∧ token_id ∉ special ∧ 0 < sparse0.getD i 0 then
        sparseStep (d t) (sparse0.getD i 0)
      else d t := by
  unfold sparseUpdate
  by_cases hm : mask0.getD i 0 = 1 ∧ token_id ∉ special
  · by_cases hw : 0 < sparse0.getD i 0
    · rw [if_pos hm, if_pos hw]
      show (if t = token_id then sparseStep (d token_id) (sparse0.getD i 0) else d t) = _
      by_cases ht : token_id = t
      · subst ht
        rw [if_pos rfl, if_pos ⟨rfl, hm.1, hm.2, hw⟩]
      · rw [if_neg (fun h => ht h.symm), if_neg (fun hc => ht hc.1)]
    · rw [if_pos hm, if_neg hw, if_neg (fun hc => hw hc.2.2.2)]
  · rw [if_neg hm, if_neg (fun hc => hm ⟨hc.2.1, hc.2.2.1⟩)]

/-- The sparse loop computes, at every key `t`, the fold of the max-update
over the strictly positive qualifying weights for `t`, starting from the
incoming dict entry. -/
theorem sparseLoop_eq_foldl (special mask0 : List Int) (sparse0 : List ℚ) :
    ∀ (rest : List Int) (i : Nat) (d : Int → Option ℚ) (t : Int),
      sparseLoop special mask0 sparse0 i rest d t =
        (positiveTokenWeights special mask0 sparse0 i rest t).foldl sparseStep (d t) := by
  intro rest
  induction rest with
  | nil => intro i d t; rfl
  | cons token_id rest ih =>
    intro i d t
    show sparseLoop special mask0 sparse0 (i + 1) rest
        (sparseUpdate special mask0 sparse0 i token_id d) t = _
    rw [ih, sparseUpdate_apply]
    simp only [positiveTokenWeights]
    by_cases hc : token_id = t ∧ mask0.getD i 0 = 1 ∧ token_id ∉ special ∧
        0 < sparse0.getD i 0
    · rw [if_pos hc, if_pos hc, List.foldl_cons]
    · rw [if_neg hc, if_neg hc]

/-- Folding the max-update over a list from a present entry yields the
plain `max` fold. -/
theorem foldl_sparseStep_some :
    ∀ (ws : List ℚ) (a : ℚ), ws.foldl sparseStep (some a) = some (ws.foldl max a) := by
  intro ws
  induction ws with
  | nil => intro a; rfl
  | cons w ws ih =>
    intro a
    rw [List.foldl_cons, List.foldl_cons,
      show sparseStep (some a) w = some (max a w) from rfl]
    exact ih (max a w)

/-- The seed of a `max` fold is a lower bound of the fold. -/
theorem le_foldl_max : ∀ (ws : List ℚ) (a : ℚ), a ≤ ws.foldl max a := by
  intro ws
  induction ws with
  | nil => intro a; exact le_refl a
  | cons w ws ih =>
    intro a
    rw [List.foldl_cons]
    exact le_trans (le_max_left a w) (ih (max a w))

/-- Every member of the list is bounded by the `max` fold. -/
theorem foldl_max_le_of_mem :
    ∀ (ws : List ℚ) (a x : ℚ), x ∈ ws → x ≤ ws.foldl max a := by
  intro ws
  induction ws with
  | nil => intro a x hx; cases hx
  | cons w ws ih =>
    intro a x hx
    rw [List.foldl_cons]
    rcases List.mem_cons.mp hx with h | h
    · rw [h]; exact le_trans (le_max_right a w) (le_foldl_max ws (max a w))
    · exact ih (max a w) x h

/-- The `max` fold is the seed or one of the list elements. -/
theorem foldl_max_mem :
    ∀ (ws : List ℚ) (a : ℚ), ws.foldl max a = a ∨ ws.foldl max a ∈ ws := by
  intro ws
  induction ws with
  | nil => intro a; exact Or.inl rfl
  | cons w ws ih =>
    intro a
    rw [List.foldl_cons]
    rcases ih (max a w) with h | h
    · rcases max_cases a w with ⟨he, _⟩ | ⟨he, _⟩
      · exact Or.inl (h.trans he)
      · exact Or.inr (by rw [h, he]; exact List.mem_cons_self w ws)
    · exact Or.inr (List.mem_cons_of_mem w h)

/-- Every weight collected by `positiveTokenWeights` is strictly positive. -/
theorem positiveTokenWeights_pos (special mask0 : List Int) (sparse0 : List ℚ) :
    ∀ (rest : List Int) (i : Nat) (t : Int) (w : ℚ),
      w ∈ positiveTokenWeights special mask0 sparse0 i rest t → 0 < w := by
  intro rest
  induction rest with
  | nil => intro i t w hw; cases hw
  | cons token_id rest ih =>
    intro i t w hw
    simp only [positiveTokenWeights] at hw
    by_cases hc : token_id = t ∧ mask0.getD i 0 = 1 ∧ token_id ∉ special ∧
        0 < sparse0.getD i 0
    · rw [if_pos hc] at hw
      cases hw with
      | head => exact hc.2.2.2
      | tail _ h => exact ih _ _ _ h
    · rw [if_neg hc] at hw
      exact ih _ _ _ hw

/-- The sparse dict holds value `v` at key `t` exactly when `v` is the
maximum of the strictly positive qualifying weights for `t`. -/
theorem buildSparseDict_eq_some_iff (special mask0 : List Int) (sparse0 : List ℚ)
    (ids0 : List Int) (t : Int) (v : ℚ) :
    buildSparseDict special mask0 sparse0 ids0 t = some v ↔
      (v ∈ positiveTokenWeights special mask0 sparse0 0 ids0 t ∧
       ∀ w ∈ positiveTokenWeights special mask0 sparse0 0 ids0 t, w ≤ v) := by
  have hkey : buildSparseDict special mask0 sparse0 ids0 t =
      (positiveTokenWeights special mask0 sparse0 0 ids0 t).foldl sparseStep none :=
    sparseLoop_eq_foldl special mask0 sparse0 ids0 0 (fun _ => none) t
  rw [hkey]
  cases hws : positiveTokenWeights special mask0 sparse0 0 ids0 t with
  | nil => simp
  | cons w ws =>
    have hwpos : 0 < w :=
      positiveTokenWeights_pos special mask0 sparse0 ids0 0 t w
        (by rw [hws]; exact List.mem_cons_self w ws)
    have h0 : sparseStep none w = some w := by
      show some (max 0 w) = some w
      rw [max_eq_right hwpos.le]
    rw [List.foldl_cons, h0, foldl_sparseStep_some]
    constructor
    · intro hv
      have hv' : ws.foldl max w = v := Option.some.inj hv
      constructor
      · rcases foldl_max_mem ws w with h1 | h1
        · rw [← hv', h1]; exact List.mem_cons_self w ws
        · rw [← hv']; exact List.mem_cons_of_mem w h1
      · intro x hx
        rw [← hv']
        rcases List.mem_cons.mp hx with h2 | h2
        · rw [h2]; exact le_foldl_max ws w
        · exact foldl_max_le_of_mem ws w x h2
    · rintro ⟨hmem, hub⟩
      have hle : ws.foldl max w ≤ v := by
        rcases foldl_max_mem ws w with h1 | h1
        · rw [h1]; exact hub w (List.mem_cons_self w ws)
        · exact hub _ (List.mem_cons_of_mem w h1)
      have hge : v ≤ ws.foldl max w := by
        rcases List.mem_cons.mp hmem with h2 | h2
        · rw [h2]; exact le_foldl_max ws w
        · exact foldl_max_le_of_mem ws w v h2
      rw [le_antisymm hle hge]

/-- The sparse dict has no entry at key `t` exactly when no position
qualifies for `t`. -/
theorem buildSparseDict_eq_none_iff (special mask0 : List Int) (sparse0 : List ℚ)
    (ids0 : List Int) (t : Int) :
    buildSparseDict special mask0 sparse0 ids0 t = none ↔
      positiveTokenWeights special mask0 sparse0 0 ids0 t = [] := by
  have hkey : buildSparseDict special mask0 sparse0 ids0 t =
      (positiveTokenWeights special mask0 sparse0 0 ids0 t).foldl sparseStep none :=
    sparseLoop_eq_foldl special mask0 sparse0 ids0 0 (fun _ => none) t
  rw [hkey]
  cases hws : positiveTokenWeights special mask0 sparse0 0 ids0 t with
  | nil => simp
  | cons w ws =>
    have hwpos : 0 < w :=
      positiveTokenWeights_pos special mask0 sparse0 ids0 0 t w
        (by rw [hws]; exact List.mem_cons_self w ws)
    have h0 : sparseStep none w = some w := by
      show some (max 0 w) = some w
      rw [max_eq_right hwpos.le]
    rw [List.foldl_cons, h0, foldl_sparseStep_some]
    simp

/-- Unfolding of a successful `OnnxBGEM3Embedder.encode` call in terms of
the tokenizer output and the model output. -/
theorem encode_ok_unfold {ε : Type} (e : OnnxBGEM3Embedder ε) (text : String)
    (touts : TokenizerOutputs) (input_ids attention_mask : List (List Int))
    (mouts : BGEModelOutputs)
    (htok : e.tokenizer_session text = .ok touts)
    (hconv : convert_tokenizer_outputs touts.tokens touts.token_indices =
      (input_ids, attention_mask))
    (hmod : e.model_session input_ids attention_mask = .ok mouts) :
    e.encode text = .ok
      { dense_vecs := mouts.dense_embeddings.getD 0 []
        lexical_weights := buildSparseDict e.special_token_ids
          (attention_mask.getD 0 []) (mouts.sparse_weights.getD 0 [])
          (input_ids.getD 0 [])
        colbert_vecs := buildColbertList (attention_mask.getD 0 [])
          (mouts.colbert_vectors.getD 0 []) } := by
  simp only [OnnxBGEM3Embedder.encode, htok, hconv, hmod]

/-- C1: the `lexical_weights` dict returned by `OnnxBGEM3Embedder.encode`
has an entry for token id `t` exactly when some position of `input_ids[0]`
holds `t` with attention mask 1, `t` outside the special-token set
`{0, 1, 2, 3}`, and a strictly positive sparse weight there; the stored
value is then the maximum of those strictly positive weights. -/
theorem C1_bge_lexical_weights {ε : Type} (e : OnnxBGEM3Embedder ε) (text : String)
    (touts : TokenizerOutputs) (input_ids attention_mask : List (List Int))
    (mouts : BGEModelOutputs) (r : BGEEncodeResult)
    (hsp : e.special_token_ids = [0, 1, 2, 3])
    (htok : e.tokenizer_session text = .ok touts)
    (hconv : convert_tokenizer_outputs touts.tokens touts.token_indices =
      (input_ids, attention_mask))
    (hmod : e.model_session input_ids attention_mask = .ok mouts)
    (henc : e.encode text = .ok r) :
    ∀ t : Int,
      (∀ v : ℚ, r.lexical_weights t = some v ↔
        (v ∈ positiveTokenWeights [0, 1, 2, 3] (attention_mask.getD 0 [])
            (mouts.sparse_weights.getD 0 []) 0 (input_ids.getD 0 []) t ∧
         ∀ w ∈ positiveTokenWeights [0, 1, 2, 3] (attention_mask.getD 0 [])
            (mouts.sparse_weights.getD 0 []) 0 (input_ids.getD 0 []) t, w ≤ v)) ∧
      (r.lexical_weights t = none ↔
        positiveTokenWeights [0, 1, 2, 3] (attention_mask.getD 0 [])
          (mouts.sparse_weights.getD 0 []) 0 (input_ids.getD 0 []) t = []) := by
  have hstep := encode_ok_unfold e text touts input_ids attention_mask mouts htok hconv hmod
  rw [henc, hsp] at hstep
  have hr : r.lexical_weights = buildSparseDict [0, 1, 2, 3] (attention_mask.getD 0 [])
      (mouts.sparse_weights.getD 0 []) (input_ids.getD 0 []) := by
    have := Except.ok.inj hstep
    rw [this]
  intro t
  rw [hr]
  exact ⟨fun v => buildSparseDict_eq_some_iff _ _ _ _ t v,
    buildSparseDict_eq_none_iff _ _ _ _ t⟩

/-- Concrete run exercising C1: token ids `[0, 7, 7, 9]` with weights
`[2, 5, 3, 0]`; id 0 is special, id 7 has positive weights 5 and 3 (so its
entry is 5), id 9 has weight 0 (so no entry). -/
theorem C1_bge_lexical_weights_witness :
    ∃ r : BGEEncodeResult,
      OnnxBGEM3Embedder.encode (ε := Unit)
        ⟨fun _ => .ok ⟨[0, 7, 7, 9], [0, 1, 2, 3]⟩,
         fun _ _ => .ok ⟨[[1]], [[2, 5, 3, 0]], [[[1]]]⟩, [0, 1, 2, 3]⟩ "x" = .ok r ∧
      r.lexical_weights 7 = some 5 ∧ r.lexical_weights 9 = none := by
  refine ⟨{ dense_vecs := [1]
            lexical_weights := buildSparseDict [0, 1, 2, 3] [1, 1, 1, 1] [2, 5, 3, 0]
              [0, 7, 7, 9]
            colbert_vecs := [[1]] }, rfl, ?_, ?_⟩
  · exact ((C1_bge_lexical_weights (ε := Unit)
      ⟨fun _ => .ok ⟨[0, 7, 7, 9], [0, 1, 2, 3]⟩,
       fun _ _ => .ok ⟨[[1]], [[2, 5, 3, 0]], [[[1]]]⟩, [0, 1, 2, 3]⟩ "x"
      ⟨[0, 7, 7, 9], [0, 1, 2, 3]⟩ [[0, 7, 7, 9]] [[1, 1, 1, 1]]
      ⟨[[1]], [[2, 5, 3, 0]], [[[1]]]⟩ _ rfl rfl (by rfl) rfl rfl 7).1 5).mpr
      (by decide)
  · exact ((C1_bge_lexical_weights (ε := Unit)
      ⟨fun _ => .ok ⟨[0, 7, 7, 9], [0, 1, 2, 3]⟩,
       fun _ _ => .ok ⟨[[1]], [[2, 5, 3, 0]], [[[1]]]⟩, [0, 1, 2, 3]⟩ "x"
      ⟨[0, 7, 7, 9], [0, 1, 2, 3]⟩ [[0, 7, 7, 9]] [[1, 1, 1, 1]]
      ⟨[[1]], [[2, 5, 3, 0]], [[[1]]]⟩ _ rfl rfl (by rfl) rfl rfl 9).2).mpr
      (by decide)

/-- C2: on equal-length inputs whose token indices are pairwise distinct,
`convert_tokenizer_outputs` returns a single-row `input_ids` holding
exactly the given tokens (paired with their indices) reordered into
strictly ascending index order, together with an attention mask of the
same shape. -/
theorem C2_convert_tokenizer_outputs (tokens token_indices : List Int)
    (hlen : tokens.length = token_indices.length)
    (hnd : token_indices.Nodup) :
    ∃ pairs : List (Int × Int),
      pairs.Perm (token_indices.zip tokens) ∧
      List.Sorted (· < ·) (pairs.map Prod.fst) ∧
      (convert_tokenizer_outputs tokens token_indices).1 = [pairs.map Prod.snd] ∧
      (convert_tokenizer_outputs tokens token_indices).2 =
        [(pairs.map Prod.snd).map fun _ => (1 : Int)] := by
  refine ⟨List.insertionSort pairLe (token_indices.zip tokens),
    List.perm_insertionSort pairLe _, ?_, rfl, rfl⟩
  have hsorted : List.Sorted pairLe
      (List.insertionSort pairLe (token_indices.zip tokens)) :=
    List.sorted_insertionSort pairLe _
  have hfst : (token_indices.zip tokens).map Prod.fst = token_indices :=
    List.map_fst_zip token_indices tokens (le_of_eq hlen.symm)
  have hnd2 : ((List.insertionSort pairLe (token_indices.zip tokens)).map Prod.fst).Nodup := by
    have hperm :=
      (List.perm_insertionSort pairLe (token_indices.zip tokens)).map Prod.fst
    refine hperm.symm.nodup ?_
    rw [hfst]
    exact hnd
  have hndp : List.Pairwise (fun a b : Int × Int => a.1 ≠ b.1)
      (List.insertionSort pairLe (token_indices.zip tokens)) :=
    List.pairwise_map.mp hnd2
  rw [List.Sorted, List.pairwise_map]
  refine (hsorted.and hndp).imp ?_
  intro a b hab
  rcases hab.1 with h | h
  · exact h
  · exact absurd h.1 hab.2

/-- Concrete run exercising C2: tokens `[10, 20, 30]` at positions
`[2, 0, 1]` are reordered to `[20, 30, 10]`. -/
theorem C2_convert_tokenizer_outputs_witness :
    ∃ pairs : List (Int × Int),
      pairs.Perm (List.zip [2, 0, 1] [10, 20, 30]) ∧
      List.Sorted (· < ·) (pairs.map Prod.fst) ∧
      (convert_tokenizer_outputs [10, 20, 30] [2, 0, 1]).1 = [pairs.map Prod.snd] ∧
      (convert_tokenizer_outputs [10, 20, 30] [2, 0, 1]).2 =
        [(pairs.map Prod.snd).map fun _ => (1 : Int)] :=
  C2_convert_tokenizer_outputs [10, 20, 30] [2, 0, 1] (by decide) (by decide)

/-- C4: `get_detailed_instruct` returns the string
`"Instruct: " + task + "\n" + "Query: " + query`. -/
theorem C4_get_detailed_instruct (task_description query : String) :
    OnnxE5LargeInstructEmbedder.get_detailed_instruct task_description query =
      "Instruct: " ++ task_description ++ "\n" ++ "Query: " ++ query := by
  show "Instruct: " ++ task_description ++ "\nQuery: " ++ query ++ "" = _
  rw [String.append_empty]
  rw [show ("\nQuery: " : String) = "\n" ++ "Query: " from rfl]
  rw [← String.append_assoc]

/-- A conditional `filterMap` is the `map` of the `filter`. -/
theorem filterMap_if_eq_filter_map {α : Type} (f : Nat → α) (p : Nat → Prop)
    [DecidablePred p] :
    ∀ l : List Nat, (l.filterMap fun i => if p i then some (f i) else none) =
      (l.filter fun i => decide (p i)).map f := by
  intro l
  induction l with
  | nil => rfl
  | cons a l ih =>
    rw [List.filterMap_cons, List.filter_cons]
    by_cases hp : p a
    · simp only [hp, if_true, decide_True, if_pos]
      rw [List.map_cons, ih]
    · simp only [hp, if_false, decide_False, Bool.false_eq_true, if_neg, not_false_iff]
      rw [ih]

/-- In a list of ones, every in-range position reads 1. -/
theorem getD_map_one : ∀ (l : List Int) (i : Nat), i < l.length →
    (l.map fun _ => (1 : Int)).getD i 0 = 1 := by
  intro l
  induction l with
  | nil => intro i h; exact absurd h (Nat.not_lt_zero i)
  | cons a l ih =>
    intro i h
    cases i with
    | zero => rfl
    | succ n =>
      rw [List.map_cons, List.getD_cons_succ]
      exact ih n (Nat.lt_of_succ_lt_succ h)

/-- Reading every in-range position of a list reproduces the list. -/
theorem map_getD_range {α : Type} (d : α) :
    ∀ l : List α, (List.range l.length).map (fun i => l.getD i d) = l := by
  intro l
  induction l with
  | nil => rfl
  | cons a l ih =>
    show (List.range (l.length + 1)).map (fun i => (a :: l).getD i d) = a :: l
    rw [List.range_succ_eq_map, List.map_cons, List.map_map]
    rw [List.getD_cons_zero]
    have hcomp : ∀ i ∈ List.range l.length,
        ((fun i => (a :: l).getD i d) ∘ Nat.succ) i = l.getD i d := by
      intro i _
      show (a :: l).getD (i + 1) d = l.getD i d
      exact List.getD_cons_succ
    rw [List.map_congr_left hcomp, ih]

/-- Against an all-ones attention mask of matching length, the ColBERT
loop keeps every position. -/
theorem buildColbertList_all_ones (ids0 : List Int) (col0 : List (List ℚ))
    (hlen : col0.length = ids0.length) :
    buildColbertList (ids0.map fun _ => (1 : Int)) col0 = col0 := by
  unfold buildColbertList
  have hcong : ∀ i ∈ List.range col0.length,
      (if (ids0.map fun _ => (1 : Int)).getD i 0 = 1 then some (col0.getD i []) else none) =
        (some ∘ fun i => col0.getD i []) i := by
    intro i hi
    have hi' : i < ids0.length := hlen ▸ List.mem_range.mp hi
    rw [if_pos (getD_map_one ids0 i hi')]
    rfl
  rw [List.filterMap_congr hcong, List.filterMap_eq_map, map_getD_range]

/-- C3: the `colbert_vecs` list returned by `OnnxBGEM3Embedder.encode`
consists exactly of the row-0 ColBERT vectors of the positions whose
attention mask is 1, in increasing position order, and nothing else;
`hshape` is the shape agreement guaranteed by the model signature. -/
theorem C3_bge_colbert_vecs {ε : Type} (e : OnnxBGEM3Embedder ε) (text : String)
    (touts : TokenizerOutputs) (input_ids attention_mask : List (List Int))
    (mouts : BGEModelOutputs) (r : BGEEncodeResult)
    (htok : e.tokenizer_session text = .ok touts)
    (hconv : convert_tokenizer_outputs touts.tokens touts.token_indices =
      (input_ids, attention_mask))
    (hmod : e.model_session input_ids attention_mask = .ok mouts)
    (henc : e.encode text = .ok r)
    (hshape : (mouts.colbert_vectors.getD 0 []).length =
      (attention_mask.getD 0 []).length) :
    r.colbert_vecs =
      ((List.range (attention_mask.getD 0 []).length).filter
          (fun i => decide ((attention_mask.getD 0 []).getD i 0 = 1))).map
        fun i => (mouts.colbert_vectors.getD 0 []).getD i [] := by
  have hstep := encode_ok_unfold e text touts input_ids attention_mask mouts htok hconv hmod
  rw [henc] at hstep
  have hr : r.colbert_vecs = buildColbertList (attention_mask.getD 0 [])
      (mouts.colbert_vectors.getD 0 []) := by
    have h := Except.ok.inj hstep
    rw [h]
  rw [hr]
  unfold buildColbertList
  rw [hshape]
  exact filterMap_if_eq_filter_map _ _ _

/-- Concrete run exercising C3: an all-ones mask of length 2 keeps both
ColBERT vectors. -/
theorem C3_bge_colbert_vecs_witness :
    buildColbertList [1, 1] [[1], [2]] =
      ((List.range ([1, 1] : List Int).length).filter
          (fun i => decide (([1, 1] : List Int).getD i 0 = 1))).map
        fun i => ([[1], [2]] : List (List ℚ)).getD i [] :=
  C3_bge_colbert_vecs (ε := Unit)
    ⟨fun _ => .ok ⟨[4, 5], [0, 1]⟩,
     fun _ _ => .ok ⟨[[1]], [[1, 1]], [[[1], [2]]]⟩, [0, 1, 2, 3]⟩ "x"
    ⟨[4, 5], [0, 1]⟩ [[4, 5]] [[1, 1]] ⟨[[1]], [[1, 1]], [[[1], [2]]]⟩
    { dense_vecs := [1]
      lexical_weights := buildSparseDict [0, 1, 2, 3] [1, 1] [1, 1] [4, 5]
      colbert_vecs := buildColbertList [1, 1] [[1], [2]] }
    rfl rfl rfl rfl rfl

/-- C9: the attention mask produced by `convert_tokenizer_outputs` is an
all-ones tensor of the same shape as `input_ids`, so inside `encode` the
mask guard holds at every position, no position is treated as padding,
and (under the model-signature shape agreement `hshape`) `colbert_vecs`
keeps exactly one vector per token position. -/
theorem C9_mask_all_ones {ε : Type} (e : OnnxBGEM3Embedder ε) (text : String)
    (touts : TokenizerOutputs) (input_ids attention_mask : List (List Int))
    (mouts : BGEModelOutputs) (r : BGEEncodeResult)
    (htok : e.tokenizer_session text = .ok touts)
    (hconv : convert_tokenizer_outputs touts.tokens touts.token_indices =
      (input_ids, attention_mask))
    (hmod : e.model_session input_ids attention_mask = .ok mouts)
    (henc : e.encode text = .ok r)
    (hshape : (mouts.colbert_vectors.getD 0 []).length = (input_ids.getD 0 []).length) :
    (∀ tokens token_indices : List Int,
      (convert_tokenizer_outputs tokens token_indices).2 =
        (convert_tokenizer_outputs tokens token_indices).1.map (List.map fun _ => (1 : Int))) ∧
    (∀ i, i < (attention_mask.getD 0 []).length → (attention_mask.getD 0 []).getD i 0 = 1) ∧
    r.colbert_vecs = mouts.colbert_vectors.getD 0 [] ∧
    r.colbert_vecs.length = (input_ids.getD 0 []).length := by
  have h1 : (convert_tokenizer_outputs touts.tokens touts.token_indices).1 = input_ids := by
    rw [hconv]
  have h2 : (convert_tokenizer_outputs touts.tokens touts.token_indices).2 = attention_mask := by
    rw [hconv]
  have hmask : attention_mask.getD 0 [] = (input_ids.getD 0 []).map fun _ => (1 : Int) := by
    rw [← h1, ← h2]
    rfl
  have hstep := encode_ok_unfold e text touts input_ids attention_mask mouts htok hconv hmod
  rw [henc] at hstep
  have hr : r.colbert_vecs = buildColbertList (attention_mask.getD 0 [])
      (mouts.colbert_vectors.getD 0 []) := by
    have h := Except.ok.inj hstep
    rw [h]
  have hcol : r.colbert_vecs = mouts.colbert_vectors.getD 0 [] := by
    rw [hr, hmask]
    exact buildColbertList_all_ones (input_ids.getD 0 []) (mouts.colbert_vectors.getD 0 []) hshape
  refine ⟨fun tokens token_indices => rfl, ?_, hcol, ?_⟩
  · intro i hi
    rw [hmask] at hi ⊢
    rw [List.length_map] at hi
    exact getD_map_one (input_ids.getD 0 []) i hi
  · rw [hcol]
    exact hshape

/-- Concrete run exercising C9: two token positions, mask `[1, 1]`, and
one ColBERT vector kept per position. -/
theorem C9_mask_all_ones_witness :
    buildColbertList [1, 1] [[1], [2]] = [[1], [2]] ∧
    ([1, 1] : List Int).getD 0 0 = 1 ∧
    (buildColbertList [1, 1] ([[1], [2]] : List (List ℚ))).length = 2 := by
  have h := C9_mask_all_ones (ε := Unit)
    ⟨fun _ => .ok ⟨[4, 5], [0, 1]⟩,
     fun _ _ => .ok ⟨[[1]], [[1, 1]], [[[1], [2]]]⟩, [0, 1, 2, 3]⟩ "x"
    ⟨[4, 5], [0, 1]⟩ [[4, 5]] [[1, 1]] ⟨[[1]], [[1, 1]], [[[1], [2]]]⟩
    { dense_vecs := [1]
      lexical_weights := buildSparseDict [0, 1, 2, 3] [1, 1] [1, 1] [4, 5]
      colbert_vecs := buildColbertList [1, 1] [[1], [2]] }
    rfl rfl rfl rfl rfl
  exact ⟨h.2.2.1, h.2.1 0 (by decide), h.2.2.2⟩

/-- Step equation of the BGE text loop when `encode` fails. -/
theorem processTexts_cons_error {ε : Type} (e : OnnxBGEM3Embedder ε) (t : String)
    (ts : List String) (err : ε) (h : e.encode t = .error err) :
    processTexts e (t :: ts) = ([Event.encodeCall t], e, .error err) := by
  simp only [processTexts, OnnxBGEM3Embedder.encodeM, h]

/-- Step equation of the BGE text loop when `encode` succeeds. -/
theorem processTexts_cons_ok {ε : Type} (e : OnnxBGEM3Embedder ε) (t : String)
    (ts : List String) (v : BGEEncodeResult) (h : e.encode t = .ok v) :
    processTexts e (t :: ts) =
      (Event.encodeCall t :: (processTexts e ts).1, (processTexts e ts).2.1,
       ((processTexts e ts).2.2).map fun l => (t, v) :: l) := by
  simp only [processTexts, OnnxBGEM3Embedder.encodeM, h]

/-- The BGE text loop never changes the embedder object it threads. -/
theorem processTexts_state {ε : Type} :
    ∀ (texts : List String) (e : OnnxBGEM3Embedder ε), (processTexts e texts).2.1 = e := by
  intro texts
  induction texts with
  | nil => intro e; rfl
  | cons t ts ih =>
    intro e
    cases henc : e.encode t with
    | error err => rw [processTexts_cons_error e t ts err henc]
    | ok v =>
      rw [processTexts_cons_ok e t ts v henc]
      exact ih e

/-- Every event emitted by the BGE text loop is an `encodeCall`. -/
theorem processTexts_trace {ε : Type} :
    ∀ (texts : List String) (e : OnnxBGEM3Embedder ε) (ev : Event),
      ev ∈ (processTexts e texts).1 → ∃ t, ev = Event.encodeCall t := by
  intro texts
  induction texts with
  | nil => intro e ev h; cases h
  | cons t ts ih =>
    intro e ev h
    cases henc : e.encode t with
    | error err =>
      rw [processTexts_cons_error e t ts err henc] at h
      exact ⟨t, List.mem_singleton.mp h⟩
    | ok v =>
      rw [processTexts_cons_ok e t ts v henc] at h
      rcases List.mem_cons.mp h with h2 | h2
      · exact ⟨t, h2⟩
      · exact ih e ev h2

/-- Step equation of the E5 case loop when `encode` fails. -/
theorem e5ProcessCases_cons_error {ε : Type} (e : OnnxE5LargeInstructEmbedder ε)
    (name text : String) (rest : List (String × String)) (err : E5Error ε)
    (h : e.encode (.str text) = .error err) :
    e5ProcessCases e ((name, text) :: rest) = ([Event.encodeCall text], .error err) := by
  simp only [e5ProcessCases, h]

/-- Step equation of the E5 case loop when `encode` succeeds. -/
theorem e5ProcessCases_cons_ok {ε : Type} (e : OnnxE5LargeInstructEmbedder ε)
    (name text : String) (rest : List (String × String)) (emb : E5Output)
    (h : e.encode (.str text) = .ok emb) :
    e5ProcessCases e ((name, text) :: rest) =
      (Event.encodeCall text :: (e5ProcessCases e rest).1,
       ((e5ProcessCases e rest).2).map fun l => (name, ⟨text, emb⟩) :: l) := by
  simp only [e5ProcessCases, h]

/-- Every event emitted by the E5 case loop is an `encodeCall`. -/
theorem e5ProcessCases_trace {ε : Type} :
    ∀ (cs : List (String × String)) (e : OnnxE5LargeInstructEmbedder ε) (ev : Event),
      ev ∈ (e5ProcessCases e cs).1 → ∃ t, ev = Event.encodeCall t := by
  intro cs
  induction cs with
  | nil => intro e ev h; cases h
  | cons c rest ih =>
    intro e ev h
    obtain ⟨name, text⟩ := c
    cases henc : e.encode (.str text) with
    | error err =>
      rw [e5ProcessCases_cons_error e name text rest err henc] at h
      exact ⟨text, List.mem_singleton.mp h⟩
    | ok emb =>
      rw [e5ProcessCases_cons_ok e name text rest emb henc] at h
      rcases List.mem_cons.mp h with h2 | h2
      · exact ⟨text, h2⟩
      · exact ih e ev h2

/-- A filter that rejects `encodeCall` events empties a trace made only of
`encodeCall` events. -/
theorem filter_encodeCall_trace (p : Event → Bool)
    (hp : ∀ t, p (Event.encodeCall t) = false) (l : List Event)
    (h : ∀ ev ∈ l, ∃ t, ev = Event.encodeCall t) : l.filter p = [] := by
  refine List.filter_eq_nil_iff.mpr ?_
  intro a ha
  rcases h a ha with ⟨t, rfl⟩
  rw [hp t]
  exact Bool.false_ne_true

/-- A successful E5 encode loop returns one embedding per input text, in
input order. -/
theorem e5EncodeLoop_ok {ε : Type} (self : OnnxE5LargeInstructEmbedder ε) :
    ∀ (l : List String) (vs : List (List ℚ)), e5EncodeLoop self l = .ok vs →
      vs.length = l.length ∧
      ∀ i, i < l.length → e5EncodeOne self (l.getD i "") = .ok (vs.getD i []) := by
  intro l
  induction l with
  | nil =>
    intro vs h
    have hv : ([] : List (List ℚ)) = vs := Except.ok.inj h
    subst hv
    exact ⟨rfl, fun i hi => absurd hi (Nat.not_lt_zero i)⟩
  | cons t ts ih =>
    intro vs h
    simp only [e5EncodeLoop] at h
    cases hone : e5EncodeOne self t with
    | error err =>
      rw [hone] at h
      exact Except.noConfusion h
    | ok v =>
      rw [hone] at h
      cases hrest : e5EncodeLoop self ts with
      | error err =>
        rw [hrest] at h
        exact Except.noConfusion h
      | ok ws =>
        rw [hrest] at h
        have hv : v :: ws = vs :=
          Except.ok.inj (h : Except.ok (v :: ws) = Except.ok vs)
        subst hv
        rcases ih ws hrest with ⟨hlen, hptw⟩
        refine ⟨by rw [List.length_cons, List.length_cons, hlen], ?_⟩
        intro i hi
        cases i with
        | zero => exact hone
        | succ n =>
          rw [List.getD_cons_succ, List.getD_cons_succ]
          exact hptw n (Nat.lt_of_succ_lt_succ hi)

/-- C10: `OnnxE5LargeInstructEmbedder.encode` returns a single embedding
vector for a bare-string argument or a one-element list, and returns a
list with one embedding per input text, in input order, exactly when the
argument is a list of two or more texts. -/
theorem C10_e5_encode_return_shape {ε : Type} (self : OnnxE5LargeInstructEmbedder ε) :
    (∀ s v, e5EncodeOne self s = .ok v → self.encode (.str s) = .ok (.single v)) ∧
    (∀ s v, e5EncodeOne self s = .ok v → self.encode (.list [s]) = .ok (.single v)) ∧
    (∀ l vs, e5EncodeLoop self l = .ok vs →
      vs.length = l.length ∧
      (∀ i, i < l.length → e5EncodeOne self (l.getD i "") = .ok (vs.getD i [])) ∧
      (2 ≤ l.length → self.encode (.list l) = .ok (.multiple vs))) := by
  have hone : ∀ s v, e5EncodeOne self s = .ok v → e5EncodeLoop self [s] = .ok [v] := by
    intro s v h
    simp only [e5EncodeLoop, h, Except.map]
  refine ⟨?_, ?_, ?_⟩
  · intro s v h
    simp only [OnnxE5LargeInstructEmbedder.encode, hone s v h]
    rfl
  · intro s v h
    simp only [OnnxE5LargeInstructEmbedder.encode, hone s v h]
    rfl
  · intro l vs h
    rcases e5EncodeLoop_ok self l vs h with ⟨hlen, hptw⟩
    refine ⟨hlen, hptw, ?_⟩
    intro h2
    have hgt : 1 < vs.length := by rw [hlen]; omega
    simp only [OnnxE5LargeInstructEmbedder.encode, h]
    rw [if_pos hgt]

/-- Concrete runs exercising C10: a bare string and a one-element list
give a single vector, a two-element list gives a list of two vectors. -/
theorem C10_e5_encode_return_shape_witness :
    OnnxE5LargeInstructEmbedder.encode (ε := Unit)
      ⟨fun _ => .ok ⟨[], []⟩, fun _ _ => .ok []⟩ (.str "a") = .ok (.single []) ∧
    OnnxE5LargeInstructEmbedder.encode (ε := Unit)
      ⟨fun _ => .ok ⟨[], []⟩, fun _ _ => .ok []⟩ (.list ["a"]) = .ok (.single []) ∧
    OnnxE5LargeInstructEmbedder.encode (ε := Unit)
      ⟨fun _ => .ok ⟨[], []⟩, fun _ _ => .ok []⟩ (.list ["a", "b"]) =
      .ok (.multiple [[], []]) := by
  have h := C10_e5_encode_return_shape (ε := Unit) ⟨fun _ => .ok ⟨[], []⟩, fun _ _ => .ok []⟩
  exact ⟨h.1 "a" [] rfl, h.2.1 "a" [] rfl,
    (h.2.2 ["a", "b"] [[], []] rfl).2.2 (by decide)⟩

/-- `mainBGE` when both files exist and some `encode` call fails: the
error propagates, nothing is written. -/
theorem mainBGE_error {ε : Type} (path_exists : String → Bool)
    (mkTok : String → String → Except ε TokenizerOutputs)
    (mkModel : String → List (List Int) → List (List Int) → Except ε BGEModelOutputs)
    (script_dir : String) (err : ε)
    (hfs1 : path_exists (bge_tokenizer_path script_dir) = true)
    (hfs2 : path_exists (bge_model_path script_dir) = true)
    (hproc : (processTexts ((OnnxBGEM3Embedder.init mkTok mkModel
        (bge_tokenizer_path script_dir) (bge_model_path script_dir)).1)
        bge_test_texts).2.2 = .error err) :
    mainBGE path_exists mkTok mkModel script_dir =
      ((OnnxBGEM3Embedder.init mkTok mkModel (bge_tokenizer_path script_dir)
          (bge_model_path script_dir)).2 ++
        (processTexts ((OnnxBGEM3Embedder.init mkTok mkModel
          (bge_tokenizer_path script_dir) (bge_model_path script_dir)).1)
          bge_test_texts).1, none) := by
  simp only [mainBGE, hfs1, hfs2, hproc]
  rw [if_neg (fun hc => Bool.noConfusion hc), if_neg (fun hc => Bool.noConfusion hc)]

/-- `mainBGE` when both files exist and every `encode` call succeeds: the
output is written once, after all texts. -/
theorem mainBGE_ok {ε : Type} (path_exists : String → Bool)
    (mkTok : String → String → Except ε TokenizerOutputs)
    (mkModel : String → List (List Int) → List (List Int) → Except ε BGEModelOutputs)
    (script_dir : String) (embeddings : List (String × BGEEncodeResult))
    (hfs1 : path_exists (bge_tokenizer_path script_dir) = true)
    (hfs2 : path_exists (bge_model_path script_dir) = true)
    (hproc : (processTexts ((OnnxBGEM3Embedder.init mkTok mkModel
        (bge_tokenizer_path script_dir) (bge_model_path script_dir)).1)
        bge_test_texts).2.2 = .ok embeddings) :
    mainBGE path_exists mkTok mkModel script_dir =
      ((OnnxBGEM3Embedder.init mkTok mkModel (bge_tokenizer_path script_dir)
          (bge_model_path script_dir)).2 ++
        (processTexts ((OnnxBGEM3Embedder.init mkTok mkModel
          (bge_tokenizer_path script_dir) (bge_model_path script_dir)).1)
          bge_test_texts).1 ++
        [Event.writeOutput (bge_output_path script_dir)], some embeddings) := by
  simp only [mainBGE, hfs1, hfs2, hproc]
  rw [if_neg (fun hc => Bool.noConfusion hc), if_neg (fun hc => Bool.noConfusion hc)]

/-- `mainE5` when both files exist and some `encode` call fails. -/
theorem mainE5_error {ε : Type} (path_exists : String → Bool)
    (mkTok : String → String → Except ε TokenizerOutputs)
    (mkModel : String → List (List Int) → List (List Int) → Except ε (List (List (List ℚ))))
    (script_dir : String) (err : E5Error ε)
    (hfs1 : path_exists (e5_tokenizer_path script_dir) = true)
    (hfs2 : path_exists (e5_model_path script_dir) = true)
    (hproc : (e5ProcessCases ((OnnxE5LargeInstructEmbedder.init mkTok mkModel
        (e5_tokenizer_path script_dir) (e5_model_path script_dir)).1)
        e5_test_cases).2 = .error err) :
    mainE5 path_exists mkTok mkModel script_dir =
      ((OnnxE5LargeInstructEmbedder.init mkTok mkModel (e5_tokenizer_path script_dir)
          (e5_model_path script_dir)).2 ++
        (e5ProcessCases ((OnnxE5LargeInstructEmbedder.init mkTok mkModel
          (e5_tokenizer_path script_dir) (e5_model_path script_dir)).1)
          e5_test_cases).1, none) := by
  simp only [mainE5, hfs1, hfs2, hproc]
  rw [if_neg (fun hc => Bool.noConfusion hc), if_neg (fun hc => Bool.noConfusion hc)]

/-- `mainE5` when both files exist and every `encode` call succeeds. -/
theorem mainE5_ok {ε : Type} (path_exists : String → Bool)
    (mkTok : String → String → Except ε TokenizerOutputs)
    (mkModel : String → List (List Int) → List (List Int) → Except ε (List (List (List ℚ))))
    (script_dir : String) (embeddings : List (String × E5Entry))
    (hfs1 : path_exists (e5_tokenizer_path script_dir) = true)
    (hfs2 : path_exists (e5_model_path script_dir) = true)
    (hproc : (e5ProcessCases ((OnnxE5LargeInstructEmbedder.init mkTok mkModel
        (e5_tokenizer_path script_dir) (e5_model_path script_dir)).1)
        e5_test_cases).2 = .ok embeddings) :
    mainE5 path_exists mkTok mkModel script_dir =
      ((OnnxE5LargeInstructEmbedder.init mkTok mkModel (e5_tokenizer_path script_dir)
          (e5_model_path script_dir)).2 ++
        (e5ProcessCases ((OnnxE5LargeInstructEmbedder.init mkTok mkModel
          (e5_tokenizer_path script_dir) (e5_model_path script_dir)).1)
          e5_test_cases).1 ++
        [Event.writeOutput (e5_output_path script_dir)], some embeddings) := by
  simp only [mainE5, hfs1, hfs2, hproc]
  rw [if_neg (fun hc => Bool.noConfusion hc), if_neg (fun hc => Bool.noConfusion hc)]

/-- The BGE text loop on an embedder whose every `encode` succeeds. -/
theorem processTexts_all_ok {ε : Type} (e : OnnxBGEM3Embedder ε)
    (rFn : String → BGEEncodeResult) (he : ∀ t, e.encode t = .ok (rFn t)) :
    ∀ texts : List String, processTexts e texts =
      (texts.map Event.encodeCall, e, .ok (texts.map fun t => (t, rFn t))) := by
  intro texts
  induction texts with
  | nil => rfl
  | cons t ts ih =>
    rw [processTexts_cons_ok e t ts (rFn t) (he t), ih]
    rfl

/-- The E5 case loop on an embedder whose every bare-string `encode`
succeeds. -/
theorem e5ProcessCases_all_ok {ε : Type} (e : OnnxE5LargeInstructEmbedder ε)
    (embFn : String → E5Output) (he : ∀ t, e.encode (.str t) = .ok (embFn t)) :
    ∀ cs : List (String × String), e5ProcessCases e cs =
      (cs.map fun c => Event.encodeCall c.2,
       .ok (cs.map fun c => (c.1, ⟨c.2, embFn c.2⟩))) := by
  intro cs
  induction cs with
  | nil => rfl
  | cons c rest ih =>
    obtain ⟨name, text⟩ := c
    rw [e5ProcessCases_cons_ok e name text rest (embFn text) (he text), ih]
    rfl

/-- C5: each `main` checks exactly the two model-file paths before use:
when either is missing it returns with an empty event trace (no session
opened, no inference run) and no output written; and its result depends on
the file system only through those two paths. -/
theorem C5_missing_file_checks {ε : Type} (path_exists path_exists2 : String → Bool)
    (mkTokB : String → String → Except ε TokenizerOutputs)
    (mkModelB : String → List (List Int) → List (List Int) → Except ε BGEModelOutputs)
    (mkTokE : String → String → Except ε TokenizerOutputs)
    (mkModelE : String → List (List Int) → List (List Int) → Except ε (List (List (List ℚ))))
    (script_dir : String) :
    ((path_exists (bge_tokenizer_path script_dir) = false ∨
      path_exists (bge_model_path script_dir) = false) →
      mainBGE path_exists mkTokB mkModelB script_dir = ([], none)) ∧
    ((path_exists (e5_tokenizer_path script_dir) = false ∨
      path_exists (e5_model_path script_dir) = false) →
      mainE5 path_exists mkTokE mkModelE script_dir = ([], none)) ∧
    (path_exists (bge_tokenizer_path script_dir) = path_exists2 (bge_tokenizer_path script_dir) →
     path_exists (bge_model_path script_dir) = path_exists2 (bge_model_path script_dir) →
      mainBGE path_exists mkTokB mkModelB script_dir =
        mainBGE path_exists2 mkTokB mkModelB script_dir) ∧
    (path_exists (e5_tokenizer_path script_dir) = path_exists2 (e5_tokenizer_path script_dir) →
     path_exists (e5_model_path script_dir) = path_exists2 (e5_model_path script_dir) →
      mainE5 path_exists mkTokE mkModelE script_dir =
        mainE5 path_exists2 mkTokE mkModelE script_dir) := by
  refine ⟨?_, ?_, ?_, ?_⟩
  · intro h
    rcases h with h | h
    · simp only [mainBGE, h]
      rw [if_pos trivial]
    · cases hb : path_exists (bge_tokenizer_path script_dir) with
      | false =>
        simp only [mainBGE, hb]
        rw [if_pos trivial]
      | true =>
        simp only [mainBGE, hb, h]
        rw [if_neg (fun hc => Bool.noConfusion hc), if_pos trivial]
  · intro h
    rcases h with h | h
    · simp only [mainE5, h]
      rw [if_pos trivial]
    · cases hb : path_exists (e5_tokenizer_path script_dir) with
      | false =>
        simp only [mainE5, hb]
        rw [if_pos trivial]
      | true =>
        simp only [mainE5, hb, h]
        rw [if_neg (fun hc => Bool.noConfusion hc), if_pos trivial]
  · intro h1 h2
    simp only [mainBGE, h1, h2]
  · intro h1 h2
    simp only [mainE5, h1, h2]

/-- Concrete run exercising C5: with no file present, both scripts return
early with an empty trace and no output. -/
theorem C5_missing_file_checks_witness :
    mainBGE (ε := Unit) (fun _ => false) (fun _ _ => .error ())
      (fun _ _ _ => .error ()) "" = ([], none) ∧
    mainE5 (ε := Unit) (fun _ => false) (fun _ _ => .error ())
      (fun _ _ _ => .error ()) "" = ([], none) ∧
    mainBGE (ε := Unit) (fun _ => false) (fun _ _ => .error ())
      (fun _ _ _ => .error ()) "" =
      mainBGE (ε := Unit) (fun _ => false) (fun _ _ => .error ())
        (fun _ _ _ => .error ()) "" := by
  have h := C5_missing_file_checks (ε := Unit) (fun _ => false) (fun _ => false)
    (fun _ _ => .error ()) (fun _ _ _ => .error ())
    (fun _ _ => .error ()) (fun _ _ _ => .error ()) ""
  exact ⟨h.1 (Or.inl rfl), h.2.1 (Or.inl rfl), h.2.2.1 rfl rfl⟩

/-- C6: a tokenizer-session or model-session error propagates out of
`encode` unchanged (no handling, no retry), and when that happens inside
`main` no output file is written at all. -/
theorem C6_error_propagation {ε : Type} :
    (∀ (e : OnnxBGEM3Embedder ε) (text : String) (err : ε),
      e.tokenizer_session text = .error err → e.encode text = .error err) ∧
    (∀ (e : OnnxBGEM3Embedder ε) (text : String) (touts : TokenizerOutputs)
        (input_ids attention_mask : List (List Int)) (err : ε),
      e.tokenizer_session text = .ok touts →
      convert_tokenizer_outputs touts.tokens touts.token_indices =
        (input_ids, attention_mask) →
      e.model_session input_ids attention_mask = .error err →
      e.encode text = .error err) ∧
    (∀ (e : OnnxE5LargeInstructEmbedder ε) (text : String) (err : ε),
      e.tokenizer_session text = .error err →
      e5EncodeOne e text = .error (.session err)) ∧
    (∀ (e : OnnxE5LargeInstructEmbedder ε) (text : String) (touts : TokenizerOutputs)
        (input_ids attention_mask : List (List Int)) (err : ε),
      e.tokenizer_session text = .ok touts →
      convert_tokenizer_outputs touts.tokens touts.token_indices =
        (input_ids, attention_mask) →
      e.model_session input_ids attention_mask = .error err →
      e5EncodeOne e text = .error (.session err)) ∧
    (∀ (path_exists : String → Bool)
        (mkTok : String → String → Except ε TokenizerOutputs)
        (mkModel : String → List (List Int) → List (List Int) → Except ε BGEModelOutputs)
        (script_dir : String) (err : ε),
      path_exists (bge_tokenizer_path script_dir) = true →
      path_exists (bge_model_path script_dir) = true →
      (processTexts ((OnnxBGEM3Embedder.init mkTok mkModel
          (bge_tokenizer_path script_dir) (bge_model_path script_dir)).1)
          bge_test_texts).2.2 = .error err →
      (mainBGE path_exists mkTok mkModel script_dir).2 = none ∧
      (mainBGE path_exists mkTok mkModel script_dir).1.filter Event.isWrite = []) ∧
    (∀ (path_exists : String → Bool)
        (mkTok : String → String → Except ε TokenizerOutputs)
        (mkModel : String → List (List Int) → List (List Int) →
          Except ε (List (List (List ℚ))))
        (script_dir : String) (err : E5Error ε),
      path_exists (e5_tokenizer_path script_dir) = true →
      path_exists (e5_model_path script_dir) = true →
      (e5ProcessCases ((OnnxE5LargeInstructEmbedder.init mkTok mkModel
          (e5_tokenizer_path script_dir) (e5_model_path script_dir)).1)
          e5_test_cases).2 = .error err →
      (mainE5 path_exists mkTok mkModel script_dir).2 = none ∧
      (mainE5 path_exists mkTok mkModel script_dir).1.filter Event.isWrite = []) := by
  refine ⟨?_, ?_, ?_, ?_, ?_, ?_⟩
  · intro e text err herr
    simp only [OnnxBGEM3Embedder.encode, herr]
  · intro e text touts input_ids attention_mask err htok hconv hmod
    simp only [OnnxBGEM3Embedder.encode, htok, hconv, hmod]
  · intro e text err herr
    simp only [e5EncodeOne, herr]
  · intro e text touts input_ids attention_mask err htok hconv hmod
    simp only [e5EncodeOne, htok, hconv, hmod]
  · intro path_exists mkTok mkModel script_dir err hfs1 hfs2 hproc
    rw [mainBGE_error path_exists mkTok mkModel script_dir err hfs1 hfs2 hproc]
    refine ⟨rfl, ?_⟩
    rw [List.filter_append,
      filter_encodeCall_trace Event.isWrite (fun t => rfl) _ (processTexts_trace _ _)]
    rfl
  · intro path_exists mkTok mkModel script_dir err hfs1 hfs2 hproc
    rw [mainE5_error path_exists mkTok mkModel script_dir err hfs1 hfs2 hproc]
    refine ⟨rfl, ?_⟩
    rw [List.filter_append,
      filter_encodeCall_trace Event.isWrite (fun t => rfl) _ (e5ProcessCases_trace _ _)]
    rfl

/-- Concrete runs exercising C6: failing sessions make `encode` fail with
the same error and make `main` write nothing. -/
theorem C6_error_propagation_witness :
    OnnxBGEM3Embedder.encode (ε := Unit)
      ⟨fun _ => .error (), fun _ _ => .error (), [0, 1, 2, 3]⟩ "x" = .error () ∧
    OnnxBGEM3Embedder.encode (ε := Unit)
      ⟨fun _ => .ok ⟨[], []⟩, fun _ _ => .error (), [0, 1, 2, 3]⟩ "x" = .error () ∧
    e5EncodeOne (ε := Unit) ⟨fun _ => .error (), fun _ _ => .ok []⟩ "x" =
      .error (.session ()) ∧
    e5EncodeOne (ε := Unit) ⟨fun _ => .ok ⟨[], []⟩, fun _ _ => .error ()⟩ "x" =
      .error (.session ()) ∧
    (mainBGE (ε := Unit) (fun _ => true) (fun _ _ => .error ())
      (fun _ _ _ => .error ()) "").2 = none ∧
    (mainBGE (ε := Unit) (fun _ => true) (fun _ _ => .error ())
      (fun _ _ _ => .error ()) "").1.filter Event.isWrite = [] ∧
    (mainE5 (ε := Unit) (fun _ => true) (fun _ _ => .error ())
      (fun _ _ _ => .error ()) "").2 = none ∧
    (mainE5 (ε := Unit) (fun _ => true) (fun _ _ => .error ())
      (fun _ _ _ => .error ()) "").1.filter Event.isWrite = [] := by
  have h := C6_error_propagation (ε := Unit)
  have hb := h.2.2.2.2.1 (fun _ => true) (fun _ _ => .error ())
    (fun _ _ _ => .error ()) "" () rfl rfl rfl
  have he := h.2.2.2.2.2 (fun _ => true) (fun _ _ => .error ())
    (fun _ _ _ => .error ()) "" (.session ()) rfl rfl rfl
  exact ⟨h.1 ⟨fun _ => .error (), fun _ _ => .error (), [0, 1, 2, 3]⟩ "x" () rfl,
    h.2.1 ⟨fun _ => .ok ⟨[], []⟩, fun _ _ => .error (), [0, 1, 2, 3]⟩ "x"
      ⟨[], []⟩ [[]] [[]] () rfl rfl rfl,
    h.2.2.1 ⟨fun _ => .error (), fun _ _ => .ok []⟩ "x" () rfl,
    h.2.2.2.1 ⟨fun _ => .ok ⟨[], []⟩, fun _ _ => .error ()⟩ "x"
      ⟨[], []⟩ [[]] [[]] () rfl rfl rfl,
    hb.1, hb.2, he.1, he.2⟩

/-- C7: when both model files exist and every inference call succeeds,
each `main` writes its JSON object exactly once, after all test strings
have been processed: the trace is construction, the two session openings,
one `encodeCall` per test string in order, and a single final write; the
written object has one entry per test string (BGE: keyed by the text,
entries of type `BGEEncodeResult` with exactly the fields `dense_vecs`,
`lexical_weights`, `colbert_vecs`; E5: keyed by the case name, entries of
type `E5Entry` with exactly the fields `text`, `embedding`). -/
theorem C7_single_write_per_text {ε : Type} (path_exists : String → Bool)
    (mkTokB : String → String → Except ε TokenizerOutputs)
    (mkModelB : String → List (List Int) → List (List Int) → Except ε BGEModelOutputs)
    (mkTokE : String → String → Except ε TokenizerOutputs)
    (mkModelE : String → List (List Int) → List (List Int) → Except ε (List (List (List ℚ))))
    (script_dir : String) (rFn : String → BGEEncodeResult) (embFn : String → E5Output)
    (hfs1 : path_exists (bge_tokenizer_path script_dir) = true)
    (hfs2 : path_exists (bge_model_path script_dir) = true)
    (hfs3 : path_exists (e5_tokenizer_path script_dir) = true)
    (hfs4 : path_exists (e5_model_path script_dir) = true)
    (hbge : ∀ t, ((OnnxBGEM3Embedder.init mkTokB mkModelB (bge_tokenizer_path script_dir)
        (bge_model_path script_dir)).1).encode t = .ok (rFn t))
    (he5 : ∀ t, ((OnnxE5LargeInstructEmbedder.init mkTokE mkModelE
        (e5_tokenizer_path script_dir) (e5_model_path script_dir)).1).encode (.str t) =
        .ok (embFn t)) :
    mainBGE path_exists mkTokB mkModelB script_dir =
      ([Event.constructEmbedder, Event.openSession (bge_tokenizer_path script_dir),
        Event.openSession (bge_model_path script_dir)] ++
        bge_test_texts.map Event.encodeCall ++
        [Event.writeOutput (bge_output_path script_dir)],
       some (bge_test_texts.map fun t => (t, rFn t))) ∧
    mainE5 path_exists mkTokE mkModelE script_dir =
      ([Event.constructEmbedder, Event.openSession (e5_tokenizer_path script_dir),
        Event.openSession (e5_model_path script_dir)] ++
        e5_test_cases.map (fun c => Event.encodeCall c.2) ++
        [Event.writeOutput (e5_output_path script_dir)],
       some (e5_test_cases.map fun c => (c.1, ⟨c.2, embFn c.2⟩))) ∧
    (bge_test_texts.map fun t => (t, rFn t)).map Prod.fst = bge_test_texts ∧
    (e5_test_cases.map fun c => (c.1, (⟨c.2, embFn c.2⟩ : E5Entry))).map Prod.fst =
      e5_test_cases.map Prod.fst := by
  have hallB := processTexts_all_ok
    ((OnnxBGEM3Embedder.init mkTokB mkModelB (bge_tokenizer_path script_dir)
      (bge_model_path script_dir)).1) rFn hbge bge_test_texts
  have hallE := e5ProcessCases_all_ok
    ((OnnxE5LargeInstructEmbedder.init mkTokE mkModelE (e5_tokenizer_path script_dir)
      (e5_model_path script_dir)).1) embFn he5 e5_test_cases
  have hprocB : (processTexts ((OnnxBGEM3Embedder.init mkTokB mkModelB
      (bge_tokenizer_path script_dir) (bge_model_path script_dir)).1)
      bge_test_texts).2.2 = .ok (bge_test_texts.map fun t => (t, rFn t)) := by
    rw [hallB]
  have hprocE : (e5ProcessCases ((OnnxE5LargeInstructEmbedder.init mkTokE mkModelE
      (e5_tokenizer_path script_dir) (e5_model_path script_dir)).1)
      e5_test_cases).2 = .ok (e5_test_cases.map fun c => (c.1, ⟨c.2, embFn c.2⟩)) := by
    rw [hallE]
  refine ⟨?_, ?_, ?_, ?_⟩
  · rw [mainBGE_ok path_exists mkTokB mkModelB script_dir _ hfs1 hfs2 hprocB, hallB]
    rfl
  · rw [mainE5_ok path_exists mkTokE mkModelE script_dir _ hfs3 hfs4 hprocE, hallE]
    rfl
  · rw [List.map_map]
    exact List.map_id bge_test_texts
  · rw [List.map_map]
    rfl

/-- Concrete run exercising C7, with sessions that succeed on every
input. -/
theorem C7_single_write_per_text_witness :
    mainBGE (ε := Unit) (fun _ => true) (fun _ _ => .ok ⟨[], []⟩)
      (fun _ _ _ => .ok ⟨[], [], []⟩) "" =
      ([Event.constructEmbedder, Event.openSession (bge_tokenizer_path ""),
        Event.openSession (bge_model_path "")] ++
        bge_test_texts.map Event.encodeCall ++
        [Event.writeOutput (bge_output_path "")],
       some (bge_test_texts.map fun t =>
        (t, { dense_vecs := []
              lexical_weights := buildSparseDict [0, 1, 2, 3] [] [] []
              colbert_vecs := buildColbertList [] [] }))) ∧
    mainE5 (ε := Unit) (fun _ => true) (fun _ _ => .ok ⟨[], []⟩)
      (fun _ _ _ => .ok []) "" =
      ([Event.constructEmbedder, Event.openSession (e5_tokenizer_path ""),
        Event.openSession (e5_model_path "")] ++
        e5_test_cases.map (fun c => Event.encodeCall c.2) ++
        [Event.writeOutput (e5_output_path "")],
       some (e5_test_cases.map fun c => (c.1, ⟨c.2, .single []⟩))) ∧
    (bge_test_texts.map fun t =>
      (t, { dense_vecs := []
            lexical_weights := buildSparseDict [0, 1, 2, 3] [] [] []
            colbert_vecs := buildColbertList [] [] : BGEEncodeResult })).map Prod.fst =
      bge_test_texts ∧
    (e5_test_cases.map fun c =>
      (c.1, (⟨c.2, .single []⟩ : E5Entry))).map Prod.fst = e5_test_cases.map Prod.fst :=
  C7_single_write_per_text (ε := Unit) (fun _ => true)
    (fun _ _ => .ok ⟨[], []⟩) (fun _ _ _ => .ok ⟨[], [], []⟩)
    (fun _ _ => .ok ⟨[], []⟩) (fun _ _ _ => .ok [])
    ""
    (fun _ => { dense_vecs := []
                lexical_weights := buildSparseDict [0, 1, 2, 3] [] [] []
                colbert_vecs := buildColbertList [] [] })
    (fun _ => .single [])
    rfl rfl rfl rfl (fun _ => rfl) (fun _ => rfl)

/-- C8: the BGE embedder is constructed exactly once per run, opening
exactly the two inference sessions in `__init__` (in that order), and the
text loop threads the very same embedder object through every `encode`
call: `encode` reassigns no field, so all test strings go through the same
two session objects. -/
theorem C8_single_embedder_two_sessions {ε : Type}
    (mkTok : String → String → Except ε TokenizerOutputs)
    (mkModel : String → List (List Int) → List (List Int) → Except ε BGEModelOutputs)
    (path_exists : String → Bool) (script_dir : String)
    (hfs1 : path_exists (bge_tokenizer_path script_dir) = true)
    (hfs2 : path_exists (bge_model_path script_dir) = true) :
    ((OnnxBGEM3Embedder.init mkTok mkModel (bge_tokenizer_path script_dir)
        (bge_model_path script_dir)).2.filter Event.isConstruct =
      [Event.constructEmbedder] ∧
     (OnnxBGEM3Embedder.init mkTok mkModel (bge_tokenizer_path script_dir)
        (bge_model_path script_dir)).2.filter Event.isOpenSession =
      [Event.openSession (bge_tokenizer_path script_dir),
       Event.openSession (bge_model_path script_dir)]) ∧
    ((mainBGE path_exists mkTok mkModel script_dir).1.filter Event.isConstruct =
      [Event.constructEmbedder] ∧
     (mainBGE path_exists mkTok mkModel script_dir).1.filter Event.isOpenSession =
      [Event.openSession (bge_tokenizer_path script_dir),
       Event.openSession (bge_model_path script_dir)]) ∧
    (∀ (e : OnnxBGEM3Embedder ε) (texts : List String),
      (processTexts e texts).2.1 = e) ∧
    (∀ (e : OnnxBGEM3Embedder ε) (text : String), (e.encodeM text).2 = e) := by
  refine ⟨⟨rfl, rfl⟩, ?_, fun e texts => processTexts_state texts e, fun e text => rfl⟩
  have htrC : (processTexts ((OnnxBGEM3Embedder.init mkTok mkModel
      (bge_tokenizer_path script_dir) (bge_model_path script_dir)).1)
      bge_test_texts).1.filter Event.isConstruct = [] :=
    filter_encodeCall_trace Event.isConstruct (fun t => rfl) _ (processTexts_trace _ _)
  have htrO : (processTexts ((OnnxBGEM3Embedder.init mkTok mkModel
      (bge_tokenizer_path script_dir) (bge_model_path script_dir)).1)
      bge_test_texts).1.filter Event.isOpenSession = [] :=
    filter_encodeCall_trace Event.isOpenSession (fun t => rfl) _ (processTexts_trace _ _)
  cases hres : (processTexts ((OnnxBGEM3Embedder.init mkTok mkModel
      (bge_tokenizer_path script_dir) (bge_model_path script_dir)).1)
      bge_test_texts).2.2 with
  | error err =>
    rw [mainBGE_error path_exists mkTok mkModel script_dir err hfs1 hfs2 hres]
    constructor
    · rw [List.filter_append, htrC]
      rfl
    · rw [List.filter_append, htrO]
      rfl
  | ok embeddings =>
    rw [mainBGE_ok path_exists mkTok mkModel script_dir embeddings hfs1 hfs2 hres]
    constructor
    · rw [List.filter_append, List.filter_append, htrC]
      rfl
    · rw [List.filter_append, List.filter_append, htrO]
      rfl

/-- Concrete run exercising C8. -/
theorem C8_single_embedder_two_sessions_witness :
    (OnnxBGEM3Embedder.init (ε := Unit) (fun _ _ => .error ()) (fun _ _ _ => .error ())
      (bge_tokenizer_path "") (bge_model_path "")).2.filter Event.isConstruct =
      [Event.constructEmbedder] ∧
    (mainBGE (ε := Unit) (fun _ => true) (fun _ _ => .error ())
      (fun _ _ _ => .error ()) "").1.filter Event.isOpenSession =
      [Event.openSession (bge_tokenizer_path ""), Event.openSession (bge_model_path "")] ∧
    (processTexts (ε := Unit)
      ⟨fun _ => .error (), fun _ _ => .error (), [0, 1, 2, 3]⟩ ["a"]).2.1 =
      ⟨fun _ => .error (), fun _ _ => .error (), [0, 1, 2, 3]⟩ ∧
    (OnnxBGEM3Embedder.encodeM (ε := Unit)
      ⟨fun _ => .error (), fun _ _ => .error (), [0, 1, 2, 3]⟩ "a").2 =
      ⟨fun _ => .error (), fun _ _ => .error (), [0, 1, 2, 3]⟩ := by
  have h := C8_single_embedder_two_sessions (ε := Unit) (fun _ _ => .error ())
    (fun _ _ _ => .error ()) (fun _ => true) "" rfl rfl
  exact ⟨h.1.1, h.2.1.2,
    h.2.2.1 ⟨fun _ => .error (), fun _ _ => .error (), [0, 1, 2, 3]⟩ ["a"],
    h.2.2.2 ⟨fun _ => .error (), fun _ _ => .error (), [0, 1, 2, 3]⟩ "a"⟩

end PowerEmbeddings
